import Mathlib

/-!
Shallow embedding of `src/simulacao_epidemia.py`: the SIR derivative
function `sir_equations`, the 1D stochastic cellular automaton
`run_ca_simulation` (randomness modelled as an explicit oracle of uniform
draws, one per cell per step), and the box-counting dimension estimator
`calculate_box_dimension` (logs and the regression slope over ℝ, the
combinatorial parts computable).
-/

/-! ## SIR model -/

/-- Embeds `sir_equations(y, t, N, beta, gamma)`: the SIR derivatives. -/
def sir_equations (y : ℚ × ℚ × ℚ) (t N beta gamma : ℚ) : ℚ × ℚ × ℚ :=
  let S := y.1
  let I := y.2.1
  (-(beta * S * I / N), beta * S * I / N - gamma * I, gamma * I)

/-! ## Cellular automaton -/

/-- Cell state `SUSCEPTIBLE = 0`. -/
def SUSCEPTIBLE : ℕ := 0

/-- Cell state `INFECTED = 1`. -/
def INFECTED : ℕ := 1

/-- Cell state `RECOVERED = 2`. -/
def RECOVERED : ℕ := 2

/-- The initial grid of `run_ca_simulation`: all susceptible except index
`L / 2`, which is infected (`grid = np.full(L, SUSCEPTIBLE); grid[L//2] = INFECTED`). -/
def initial_grid (L : ℕ) : List ℕ :=
  (List.range L).map (fun i => if i = L / 2 then INFECTED else SUSCEPTIBLE)

/-- Number of infected ring-neighbours of cell `i` (`left_neighbor` at
`(i - 1 + L) % L`, `right_neighbor` at `(i + 1) % L`); `i + L - 1` equals
Python's `i - 1 + L` for `i < L`. -/
def infected_neighbors (grid : List ℕ) (L i : ℕ) : ℕ :=
  (if grid.getD ((i + L - 1) % L) 0 = INFECTED then 1 else 0) +
  (if grid.getD ((i + 1) % L) 0 = INFECTED then 1 else 0)

/-- One cell of the synchronous update of `run_ca_simulation`'s inner loop.
`rand i` is the uniform draw `np.random.rand()` consumed by cell `i` at this
step (at most one draw per cell per step: either the infection test or the
recovery test). The probability `k_infection * infected_neighbors * prevalence`
is used unclamped, exactly as in the source. -/
def updateCell (grid : List ℕ) (L : ℕ) (prevalence gamma_ca k_infection : ℚ)
    (rand : ℕ → ℚ) (i : ℕ) : ℕ :=
  if grid.getD i 0 = SUSCEPTIBLE then
    if 0 < infected_neighbors grid L i then
      if rand i < k_infection * (infected_neighbors grid L i : ℚ) * prevalence then
        INFECTED
      else grid.getD i 0
    else grid.getD i 0
  else if grid.getD i 0 = INFECTED then
    if rand i < gamma_ca then RECOVERED else grid.getD i 0
  else grid.getD i 0

/-- One synchronous step of the automaton: every cell reads the previous
grid (`new_grid = grid.copy()`, all reads from `grid`). -/
def ca_step (L : ℕ) (grid : List ℕ) (prevalence gamma_ca k_infection : ℚ)
    (rand : ℕ → ℚ) : List ℕ :=
  (List.range L).map (updateCell grid L prevalence gamma_ca k_infection rand)

/-- Row `t` of the grid history of `run_ca_simulation`: row 0 is the
initial grid; row `t+1` is one synchronous step of row `t` using the
prevalence `I_sir (t+1)` and the draws `rand (t+1)` of that step. -/
def ca_history (L : ℕ) (I_sir : ℕ → ℚ) (gamma_ca k_infection : ℚ)
    (rand : ℕ → ℕ → ℚ) : ℕ → List ℕ
  | 0 => initial_grid L
  | t + 1 =>
    ca_step L (ca_history L I_sir gamma_ca k_infection rand t)
      (I_sir (t + 1)) gamma_ca k_infection (rand (t + 1))

/-- Embeds `run_ca_simulation(L, time_steps, I_sir, gamma_ca, k_infection)`:
the grid history, a list of `time_steps` rows. -/
def run_ca_simulation (L time_steps : ℕ) (I_sir : ℕ → ℚ)
    (gamma_ca k_infection : ℚ) (rand : ℕ → ℕ → ℚ) : List (List ℕ) :=
  (List.range time_steps).map (ca_history L I_sir gamma_ca k_infection rand)

/-! ## Helper lemmas on list indexing -/

/-- `getD` of a mapped range at an index below the bound. -/
theorem getD_range_map {α : Type} (f : ℕ → α) (L i : ℕ) (d : α) (hi : i < L) :
    ((List.range L).map f).getD i d = f i := by
  rw [List.getD_eq_getElem]
  rotate_left
  · simpa using hi
  · simp

/-- `getD` past the end of a mapped range is the default. -/
theorem getD_range_map_default {α : Type} (f : ℕ → α) (L i : ℕ) (d : α) (hi : L ≤ i) :
    ((List.range L).map f).getD i d = d := by
  apply List.getD_eq_default
  simpa using hi

/-- Rows of the history all have length `L`. -/
theorem ca_history_length (L : ℕ) (I_sir : ℕ → ℚ) (g k : ℚ) (rand : ℕ → ℕ → ℚ)
    (t : ℕ) : (ca_history L I_sir g k rand t).length = L := by
  cases t <;> simp [ca_history, initial_grid, ca_step]

/-- Row `t` of `run_ca_simulation` is `ca_history … t` when `t < time_steps`. -/
theorem run_ca_getD (L ts : ℕ) (I_sir : ℕ → ℚ) (g k : ℚ) (rand : ℕ → ℕ → ℚ)
    (t : ℕ) (ht : t < ts) :
    (run_ca_simulation L ts I_sir g k rand).getD t [] =
      ca_history L I_sir g k rand t := by
  unfold run_ca_simulation
  exact getD_range_map _ ts t [] ht

/-- C4 — `sir_equations` returns exactly the SIR derivative triple, and the
three derivatives sum to zero (so S + I + R is conserved under exact
integration). -/
theorem sir_equations_spec (S I R t N beta gamma : ℚ) (hN : N ≠ 0) :
    sir_equations (S, I, R) t N beta gamma =
      (-(beta * S * I / N), beta * S * I / N - gamma * I, gamma * I) ∧
    (sir_equations (S, I, R) t N beta gamma).1 +
      (sir_equations (S, I, R) t N beta gamma).2.1 +
      (sir_equations (S, I, R) t N beta gamma).2.2 = 0 := by
  refine ⟨rfl, ?_⟩
  simp [sir_equations]
  ring

/-- Witness for C4 at a concrete state and concrete parameters. -/
theorem sir_equations_spec_witness :
    sir_equations (3, 5, 2) 0 7 (1/2) (1/3) =
      (-((1/2) * 3 * 5 / 7), (1/2) * 3 * 5 / 7 - (1/3) * 5, (1/3) * 5) ∧
    (sir_equations (3, 5, 2) 0 7 (1/2) (1/3)).1 +
      (sir_equations (3, 5, 2) 0 7 (1/2) (1/3)).2.1 +
      (sir_equations (3, 5, 2) 0 7 (1/2) (1/3)).2.2 = 0 :=
  sir_equations_spec 3 5 2 0 7 (1/2) (1/3) (by norm_num)

/-- C5 — row 0 of the returned history has length `L`, and holds exactly one
infected cell, at index `L / 2`, all other cells susceptible, for every
prevalence series, parameters and draws. -/
theorem run_ca_initial_row (L ts : ℕ) (I_sir : ℕ → ℚ) (g k : ℚ)
    (rand : ℕ → ℕ → ℚ) (hL : 2 ≤ L) (hts : 1 ≤ ts) :
    ((run_ca_simulation L ts I_sir g k rand).getD 0 []).length = L ∧
    ∀ i < L, ((run_ca_simulation L ts I_sir g k rand).getD 0 []).getD i 0 =
      if i = L / 2 then INFECTED else SUSCEPTIBLE := by
  rw [run_ca_getD L ts I_sir g k rand 0 hts]
  refine ⟨ca_history_length L I_sir g k rand 0, ?_⟩
  intro i hi
  show (initial_grid L).getD i 0 = _
  unfold initial_grid
  rw [getD_range_map _ L i 0 hi]

/-- Witness for C5: a concrete run with L = 5, 2 time steps. -/
theorem run_ca_initial_row_witness :
    ((run_ca_simulation 5 2 (fun _ => 0) 0 0 (fun _ _ => 0)).getD 0 []).length = 5 ∧
    ∀ i < 5, ((run_ca_simulation 5 2 (fun _ => 0) 0 0 (fun _ _ => 0)).getD 0 []).getD i 0 =
      if i = 5 / 2 then INFECTED else SUSCEPTIBLE :=
  run_ca_initial_row 5 2 (fun _ => 0) 0 0 (fun _ _ => 0) (by decide) (by decide)

/-! ## Per-step lemmas for the automaton -/

/-- A cell's value never decreases across one update. -/
theorem updateCell_ge (grid : List ℕ) (L : ℕ) (p g k : ℚ) (r : ℕ → ℚ) (i : ℕ) :
    grid.getD i 0 ≤ updateCell grid L p g k r i := by
  unfold updateCell
  split_ifs <;> simp_all [SUSCEPTIBLE, INFECTED, RECOVERED]

/-- An update yields `INFECTED`, `RECOVERED`, or the old value. -/
theorem updateCell_cases (grid : List ℕ) (L : ℕ) (p g k : ℚ) (r : ℕ → ℚ) (i : ℕ) :
    updateCell grid L p g k r i = INFECTED ∨
    updateCell grid L p g k r i = RECOVERED ∨
    updateCell grid L p g k r i = grid.getD i 0 := by
  unfold updateCell
  split_ifs <;> simp

/-- `getD` of a step row at `i < L` is the single-cell update. -/
theorem ca_step_getD (L : ℕ) (grid : List ℕ) (p g k : ℚ) (r : ℕ → ℚ) (i : ℕ)
    (hi : i < L) :
    (ca_step L grid p g k r).getD i 0 = updateCell grid L p g k r i :=
  getD_range_map _ L i 0 hi

/-- `getD` of any list at an index is zero or a member of the list. -/
theorem getD_zero_or_mem (l : List ℕ) (i : ℕ) :
    l.getD i 0 = 0 ∨ l.getD i 0 ∈ l := by
  rcases Nat.lt_or_ge i l.length with h | h
  · right
    rw [List.getD_eq_getElem l 0 h]
    exact l.getElem_mem h
  · left
    exact List.getD_eq_default l 0 h

/-- Pointwise monotonicity of one synchronous step. -/
theorem ca_step_ge (L : ℕ) (grid : List ℕ) (p g k : ℚ) (r : ℕ → ℚ)
    (hlen : grid.length = L) (i : ℕ) :
    grid.getD i 0 ≤ (ca_step L grid p g k r).getD i 0 := by
  rcases Nat.lt_or_ge i L with hi | hi
  · rw [ca_step_getD L grid p g k r i hi]
    exact updateCell_ge grid L p g k r i
  · rw [List.getD_eq_default grid 0 (hlen ▸ hi)]
    exact Nat.zero_le _

/-- A recovered cell stays recovered across one step. -/
theorem ca_step_recovered (L : ℕ) (grid : List ℕ) (p g k : ℚ) (r : ℕ → ℚ)
    (hlen : grid.length = L) (i : ℕ) (h : grid.getD i 0 = RECOVERED) :
    (ca_step L grid p g k r).getD i 0 = RECOVERED := by
  have hi : i < L := by
    by_contra hc
    rw [List.getD_eq_default grid 0 (hlen ▸ Nat.le_of_not_lt hc)] at h
    exact absurd h (by decide)
  rw [ca_step_getD L grid p g k r i hi]
  unfold updateCell
  rw [h]
  norm_num [SUSCEPTIBLE, INFECTED, RECOVERED]

/-- History rows are pointwise monotone in time. -/
theorem ca_history_mono (L : ℕ) (I_sir : ℕ → ℚ) (g k : ℚ) (rand : ℕ → ℕ → ℚ)
    (t tt : ℕ) (h : t ≤ tt) (i : ℕ) :
    (ca_history L I_sir g k rand t).getD i 0 ≤
      (ca_history L I_sir g k rand tt).getD i 0 := by
  induction tt, h using Nat.le_induction with
  | base => exact le_refl _
  | succ n hn ih =>
    refine le_trans ih ?_
    show _ ≤ (ca_step L (ca_history L I_sir g k rand n) (I_sir (n+1)) g k (rand (n+1))).getD i 0
    exact ca_step_ge L _ _ g k _ (ca_history_length L I_sir g k rand n) i

/-- Once recovered in the history, recovered at every later time. -/
theorem ca_history_recovered (L : ℕ) (I_sir : ℕ → ℚ) (g k : ℚ) (rand : ℕ → ℕ → ℚ)
    (t tt : ℕ) (h : t ≤ tt) (i : ℕ)
    (hrec : (ca_history L I_sir g k rand t).getD i 0 = RECOVERED) :
    (ca_history L I_sir g k rand tt).getD i 0 = RECOVERED := by
  induction tt, h using Nat.le_induction with
  | base => exact hrec
  | succ n hn ih =>
    show (ca_step L (ca_history L I_sir g k rand n) (I_sir (n+1)) g k (rand (n+1))).getD i 0 = RECOVERED
    exact ca_step_recovered L _ _ g k _ (ca_history_length L I_sir g k rand n) i ih

/-- C6 — the Recovered state is absorbing: if the recorded history has cell
`i` recovered at step `t`, it is recovered at every later recorded step
`t'`, for every sequence of draws. -/
theorem run_ca_recovered_absorbing (L ts : ℕ) (I_sir : ℕ → ℚ) (g k : ℚ)
    (rand : ℕ → ℕ → ℚ) (t t' i : ℕ) (htt : t < t') (hts : t' < ts)
    (h : ((run_ca_simulation L ts I_sir g k rand).getD t []).getD i 0 = RECOVERED) :
    ((run_ca_simulation L ts I_sir g k rand).getD t' []).getD i 0 = RECOVERED := by
  rw [run_ca_getD L ts I_sir g k rand t' hts]
  rw [run_ca_getD L ts I_sir g k rand t (lt_trans htt hts)] at h
  exact ca_history_recovered L I_sir g k rand t t' (le_of_lt htt) i h

/-- Pointwise `getD`-dominated lists have no more zero entries in the
larger list (same length). -/
theorem countP_zero_le_of_getD_le (a : List ℕ) :
    ∀ b : List ℕ, a.length = b.length → (∀ i, a.getD i 0 ≤ b.getD i 0) →
      b.countP (fun c => decide (c = 0)) ≤ a.countP (fun c => decide (c = 0)) := by
  induction a with
  | nil =>
    intro b hlen _
    rw [List.length_nil] at hlen
    rw [(List.length_eq_zero).1 hlen.symm]
  | cons x xs ih =>
    intro b hlen hle
    cases b with
    | nil => simp at hlen
    | cons y ys =>
      have hxy : x ≤ y := by simpa using hle 0
      have htail : ∀ i, xs.getD i 0 ≤ ys.getD i 0 := fun i => by simpa using hle (i + 1)
      have hlen2 : xs.length = ys.length := by simpa using hlen
      simp only [List.countP_cons]
      have : (if y = 0 then 1 else 0) ≤ (if x = 0 then 1 else 0) := by
        split_ifs with h1 h2
        · exact le_refl 1
        · omega
        · exact Nat.zero_le 1
        · exact le_refl 0
      have h2 := ih ys hlen2 htail
      simp only [decide_eq_true_eq]
      omega

/-- One update moves a Susceptible cell only to Susceptible or Infected,
an Infected cell only to Infected or Recovered, and keeps a Recovered
cell Recovered — never a jump down or a two-step jump up. -/
theorem updateCell_step_cases (grid : List ℕ) (L : ℕ) (p g k : ℚ) (r : ℕ → ℚ)
    (i : ℕ) :
    (grid.getD i 0 = SUSCEPTIBLE →
      updateCell grid L p g k r i = SUSCEPTIBLE ∨
      updateCell grid L p g k r i = INFECTED) ∧
    (grid.getD i 0 = INFECTED →
      updateCell grid L p g k r i = INFECTED ∨
      updateCell grid L p g k r i = RECOVERED) ∧
    (grid.getD i 0 = RECOVERED → updateCell grid L p g k r i = RECOVERED) := by
  unfold updateCell
  split_ifs <;> simp_all [SUSCEPTIBLE, INFECTED, RECOVERED]

/-- The per-cell transition relation between consecutive history rows. -/
theorem ca_history_step_cases (L : ℕ) (I_sir : ℕ → ℚ) (g k : ℚ)
    (rand : ℕ → ℕ → ℚ) (u i : ℕ) :
    ((ca_history L I_sir g k rand u).getD i 0 = SUSCEPTIBLE →
      (ca_history L I_sir g k rand (u + 1)).getD i 0 = SUSCEPTIBLE ∨
      (ca_history L I_sir g k rand (u + 1)).getD i 0 = INFECTED) ∧
    ((ca_history L I_sir g k rand u).getD i 0 = INFECTED →
      (ca_history L I_sir g k rand (u + 1)).getD i 0 = INFECTED ∨
      (ca_history L I_sir g k rand (u + 1)).getD i 0 = RECOVERED) ∧
    ((ca_history L I_sir g k rand u).getD i 0 = RECOVERED →
      (ca_history L I_sir g k rand (u + 1)).getD i 0 = RECOVERED) := by
  have hnext : ca_history L I_sir g k rand (u + 1) =
      ca_step L (ca_history L I_sir g k rand u) (I_sir (u + 1)) g k
        (rand (u + 1)) := rfl
  rcases Nat.lt_or_ge i L with hi | hi
  · rw [hnext, ca_step_getD L _ _ g k _ i hi]
    exact updateCell_step_cases (ca_history L I_sir g k rand u) L _ g k _ i
  · have h0 : ∀ v, (ca_history L I_sir g k rand v).getD i 0 = 0 := fun v =>
      List.getD_eq_default _ _ (by rw [ca_history_length]; exact hi)
    rw [h0 u, h0 (u + 1)]
    refine ⟨fun _ => Or.inl rfl, fun hc => absurd hc (by decide),
      fun hc => absurd hc (by decide)⟩

/-- C9 — cell states are non-decreasing along the recorded history, and
from one recorded step to the next a Susceptible cell stays Susceptible
or becomes Infected, an Infected cell stays Infected or becomes
Recovered, and a Recovered cell stays Recovered (no cell ever moves to a
lower-numbered state); hence the number of Susceptible cells never
increases in time, under every sequence of draws. -/
theorem run_ca_states_monotone (L ts : ℕ) (I_sir : ℕ → ℚ) (g k : ℚ)
    (rand : ℕ → ℕ → ℚ) (t t' : ℕ) (h : t ≤ t') (hts : t' < ts) :
    (∀ i, ((run_ca_simulation L ts I_sir g k rand).getD t []).getD i 0 ≤
      ((run_ca_simulation L ts I_sir g k rand).getD t' []).getD i 0) ∧
    (∀ u, u + 1 < ts → ∀ i,
      (((run_ca_simulation L ts I_sir g k rand).getD u []).getD i 0 = SUSCEPTIBLE →
        ((run_ca_simulation L ts I_sir g k rand).getD (u + 1) []).getD i 0 = SUSCEPTIBLE ∨
        ((run_ca_simulation L ts I_sir g k rand).getD (u + 1) []).getD i 0 = INFECTED) ∧
      (((run_ca_simulation L ts I_sir g k rand).getD u []).getD i 0 = INFECTED →
        ((run_ca_simulation L ts I_sir g k rand).getD (u + 1) []).getD i 0 = INFECTED ∨
        ((run_ca_simulation L ts I_sir g k rand).getD (u + 1) []).getD i 0 = RECOVERED) ∧
      (((run_ca_simulation L ts I_sir g k rand).getD u []).getD i 0 = RECOVERED →
        ((run_ca_simulation L ts I_sir g k rand).getD (u + 1) []).getD i 0 = RECOVERED)) ∧
    ((run_ca_simulation L ts I_sir g k rand).getD t' []).countP
        (fun c => decide (c = SUSCEPTIBLE)) ≤
      ((run_ca_simulation L ts I_sir g k rand).getD t []).countP
        (fun c => decide (c = SUSCEPTIBLE)) := by
  refine ⟨?_, ?_, ?_⟩
  · rw [run_ca_getD L ts I_sir g k rand t' hts,
      run_ca_getD L ts I_sir g k rand t (lt_of_le_of_lt h hts)]
    exact fun i => ca_history_mono L I_sir g k rand t t' h i
  · intro u hu i
    rw [run_ca_getD L ts I_sir g k rand (u + 1) hu,
      run_ca_getD L ts I_sir g k rand u (by omega)]
    exact ca_history_step_cases L I_sir g k rand u i
  · rw [run_ca_getD L ts I_sir g k rand t' hts,
      run_ca_getD L ts I_sir g k rand t (lt_of_le_of_lt h hts)]
    show (ca_history L I_sir g k rand t').countP (fun c => decide (c = 0)) ≤ _
    exact countP_zero_le_of_getD_le _ _
      ((ca_history_length L I_sir g k rand t).trans
        (ca_history_length L I_sir g k rand t').symm)
      (ca_history_mono L I_sir g k rand t t' h)

/-- Witness for C9: a concrete 2-step run. -/
theorem run_ca_states_monotone_witness :
    (∀ i, ((run_ca_simulation 3 2 (fun _ => 1) 1 1 (fun _ _ => 0)).getD 0 []).getD i 0 ≤
      ((run_ca_simulation 3 2 (fun _ => 1) 1 1 (fun _ _ => 0)).getD 1 []).getD i 0) ∧
    (∀ u, u + 1 < 2 → ∀ i,
      (((run_ca_simulation 3 2 (fun _ => 1) 1 1 (fun _ _ => 0)).getD u []).getD i 0 = SUSCEPTIBLE →
        ((run_ca_simulation 3 2 (fun _ => 1) 1 1 (fun _ _ => 0)).getD (u + 1) []).getD i 0 = SUSCEPTIBLE ∨
        ((run_ca_simulation 3 2 (fun _ => 1) 1 1 (fun _ _ => 0)).getD (u + 1) []).getD i 0 = INFECTED) ∧
      (((run_ca_simulation 3 2 (fun _ => 1) 1 1 (fun _ _ => 0)).getD u []).getD i 0 = INFECTED →
        ((run_ca_simulation 3 2 (fun _ => 1) 1 1 (fun _ _ => 0)).getD (u + 1) []).getD i 0 = INFECTED ∨
        ((run_ca_simulation 3 2 (fun _ => 1) 1 1 (fun _ _ => 0)).getD (u + 1) []).getD i 0 = RECOVERED) ∧
      (((run_ca_simulation 3 2 (fun _ => 1) 1 1 (fun _ _ => 0)).getD u []).getD i 0 = RECOVERED →
        ((run_ca_simulation 3 2 (fun _ => 1) 1 1 (fun _ _ => 0)).getD (u + 1) []).getD i 0 = RECOVERED)) ∧
    ((run_ca_simulation 3 2 (fun _ => 1) 1 1 (fun _ _ => 0)).getD 1 []).countP
        (fun c => decide (c = SUSCEPTIBLE)) ≤
      ((run_ca_simulation 3 2 (fun _ => 1) 1 1 (fun _ _ => 0)).getD 0 []).countP
        (fun c => decide (c = SUSCEPTIBLE)) :=
  run_ca_states_monotone 3 2 (fun _ => 1) 1 1 (fun _ _ => 0) 0 1 (by decide) (by decide)

/-- Every entry of every history row is 0, 1 or 2. -/
theorem ca_history_entries (L : ℕ) (I_sir : ℕ → ℚ) (g k : ℚ)
    (rand : ℕ → ℕ → ℚ) (t : ℕ) :
    ∀ c ∈ ca_history L I_sir g k rand t, c = 0 ∨ c = 1 ∨ c = 2 := by
  induction t with
  | zero =>
    intro c hc
    unfold ca_history initial_grid at hc
    obtain ⟨i, _, rfl⟩ := List.mem_map.1 hc
    split_ifs <;> simp [INFECTED, SUSCEPTIBLE]
  | succ n ih =>
    intro c hc
    show c = 0 ∨ c = 1 ∨ c = 2
    have hc2 : c ∈ ca_step L (ca_history L I_sir g k rand n) (I_sir (n+1)) g k (rand (n+1)) := hc
    unfold ca_step at hc2
    obtain ⟨i, _, rfl⟩ := List.mem_map.1 hc2
    rcases updateCell_cases (ca_history L I_sir g k rand n) L (I_sir (n+1)) g k (rand (n+1)) i with
      h | h | h
    · rw [h]; right; left; rfl
    · rw [h]; right; right; rfl
    · rw [h]
      rcases getD_zero_or_mem (ca_history L I_sir g k rand n) i with h0 | hm
      · left; exact h0
      · exact ih _ hm

/-- C7 — the returned history has `time_steps` rows, each of length `L`,
and every entry is Susceptible, Infected or Recovered, under every
sequence of draws. -/
theorem run_ca_shape (L ts : ℕ) (I_sir : ℕ → ℚ) (g k : ℚ)
    (rand : ℕ → ℕ → ℚ) (hL : 1 ≤ L) (hts : 1 ≤ ts) :
    (run_ca_simulation L ts I_sir g k rand).length = ts ∧
    ∀ row ∈ run_ca_simulation L ts I_sir g k rand, row.length = L ∧
      ∀ c ∈ row, c = SUSCEPTIBLE ∨ c = INFECTED ∨ c = RECOVERED := by
  refine ⟨by simp [run_ca_simulation], ?_⟩
  intro row hrow
  unfold run_ca_simulation at hrow
  obtain ⟨t, _, rfl⟩ := List.mem_map.1 hrow
  exact ⟨ca_history_length L I_sir g k rand t, ca_history_entries L I_sir g k rand t⟩

/-- Witness for C7: a concrete 3-step run on 4 cells. -/
theorem run_ca_shape_witness :
    (run_ca_simulation 4 3 (fun _ => 1/2) (1/3) 1 (fun t i => 1 / (t + i + 2))).length = 3 ∧
    ∀ row ∈ run_ca_simulation 4 3 (fun _ => 1/2) (1/3) 1 (fun t i => 1 / (t + i + 2)), row.length = 4 ∧
      ∀ c ∈ row, c = SUSCEPTIBLE ∨ c = INFECTED ∨ c = RECOVERED :=
  run_ca_shape 4 3 (fun _ => 1/2) (1/3) 1 (fun t i => 1 / (t + i + 2)) (by decide) (by decide)

/-- C8 — no clamping of the infection probability: a susceptible cell with
an infected neighbour whose unclamped probability
`k_infection * infected_neighbors * prevalence` is at least 1 becomes
infected for every draw in `[0, 1)`. -/
theorem run_ca_unclamped_infection (L : ℕ) (grid : List ℕ)
    (prevalence gamma_ca k_infection : ℚ) (rand : ℕ → ℚ) (i : ℕ) (hi : i < L)
    (hS : grid.getD i 0 = SUSCEPTIBLE)
    (hn : 0 < infected_neighbors grid L i)
    (hp : 1 ≤ k_infection * (infected_neighbors grid L i : ℚ) * prevalence)
    (hr0 : 0 ≤ rand i) (hr1 : rand i < 1) :
    (ca_step L grid prevalence gamma_ca k_infection rand).getD i 0 = INFECTED := by
  rw [ca_step_getD L grid prevalence gamma_ca k_infection rand i hi]
  unfold updateCell
  rw [if_pos hS, if_pos hn, if_pos (lt_of_lt_of_le hr1 hp)]

/-- Witness for C8: both neighbours infected, `k_infection = 1`,
`prevalence = 1`, draw `1/2`. -/
theorem run_ca_unclamped_infection_witness :
    (ca_step 3 [1, 0, 1] 1 0 1 (fun _ => 1/2)).getD 1 0 = INFECTED :=
  run_ca_unclamped_infection 3 [1, 0, 1] 1 0 1 (fun _ => 1/2) 1 (by decide)
    (by decide) (by decide)
    (by norm_num [show infected_neighbors [1, 0, 1] 3 1 = 2 from rfl])
    (by norm_num) (by norm_num)

/-- Witness for C6: a single infected cell recovers at step 1
(`gamma_ca = 1`, draw 0) and is still recovered at step 2. -/
theorem run_ca_recovered_absorbing_witness :
    ((run_ca_simulation 1 3 (fun _ => 0) 1 0 (fun _ _ => 0)).getD 2 []).getD 0 0 = RECOVERED :=
  run_ca_recovered_absorbing 1 3 (fun _ => 0) 1 0 (fun _ _ => 0) 1 2 0
    (by decide) (by decide) (by decide)

/-! ## Box-counting dimension estimator -/

/-- Indices of active (non-susceptible) cells:
`np.where(grid_state > 0)[0]`. -/
def active_cells_indices (grid_state : List ℕ) : List ℕ :=
  (List.range grid_state.length).filter (fun i => decide (0 < grid_state.getD i 0))

/-- Box sizes `[2**i for i in range(int(np.log2(L))) if 2**i < L]`;
`int(np.log2(L))` is `⌊log₂ L⌋`, i.e. `Nat.log2 L`. -/
def box_sizes (L : ℕ) : List ℕ :=
  ((List.range (Nat.log2 L)).map (fun i => 2 ^ i)).filter (fun s => decide (s < L))

/-- `np.any(grid_state[i:i+size] > 0)`: the window of width `size`
starting at `i` holds an active cell. -/
def window_active (grid_state : List ℕ) (i size : ℕ) : Bool :=
  ((grid_state.drop i).take size).any (fun c => decide (0 < c))

/-- Window start offsets `range(0, L, size)`. -/
def box_starts (L size : ℕ) : List ℕ :=
  (List.range ((L + size - 1) / size)).map (fun m => m * size)

/-- Number of boxes of width `size` containing at least one active cell. -/
def box_count (grid_state : List ℕ) (size : ℕ) : ℕ :=
  ((box_starts grid_state.length size).filter
    (fun i => window_active grid_state i size)).length

/-- The `(size, count)` pairs kept for the regression: one count per
generated box size, restricted to positive counts (`valid_indices`). -/
def valid_pairs (grid_state : List ℕ) : List (ℕ × ℕ) :=
  ((box_sizes grid_state.length).map (fun s => (s, box_count grid_state s))).filter
    (fun p => decide (0 < p.2))

/-- Least-squares slope of `scipy.stats.linregress` on paired samples:
`(n·Σxy − Σx·Σy) / (n·Σx² − (Σx)²)`. -/
noncomputable def lin_slope (pts : List (ℝ × ℝ)) : ℝ :=
  ((pts.length : ℝ) * (pts.map (fun p => p.1 * p.2)).sum -
      (pts.map Prod.fst).sum * (pts.map Prod.snd).sum) /
    ((pts.length : ℝ) * (pts.map (fun p => p.1 * p.1)).sum -
      (pts.map Prod.fst).sum * (pts.map Prod.fst).sum)

/-- Embeds `calculate_box_dimension(grid_state)`: degenerate cases return
0, otherwise the regression slope of `log(count)` on `log(1/size)`. -/
noncomputable def calculate_box_dimension (grid_state : List ℕ) : ℝ :=
  if (active_cells_indices grid_state).length < 2 then 0
  else if box_sizes grid_state.length = [] then 0
  else if (valid_pairs grid_state).length < 2 then 0
  else lin_slope ((valid_pairs grid_state).map
    (fun p => (Real.log (1 / (p.1 : ℝ)), Real.log (p.2 : ℝ))))

/-- Every generated power `2^j`, `j < ⌊log₂ L⌋`, is already below `L`:
the `if 2**i < L` filter in the source never removes anything. -/
theorem pow_lt_of_lt_log2 (L j : ℕ) (hj : j < Nat.log2 L) : 2 ^ j < L := by
  have hL0 : L ≠ 0 := by
    intro h
    rw [h, Nat.log2_eq_log_two, Nat.log_zero_right] at hj
    exact Nat.not_lt_zero j hj
  have h1 : 2 ^ (j + 1) ≤ 2 ^ Nat.log2 L := Nat.pow_le_pow_right (by norm_num) hj
  have h2 : 2 ^ Nat.log2 L ≤ L := by
    rw [Nat.log2_eq_log_two]
    exact Nat.pow_log_le_self 2 hL0
  have h3 : 2 ^ j < 2 ^ (j + 1) := by
    rw [pow_succ]
    have : 0 < 2 ^ j := Nat.pos_pow_of_pos j (by norm_num)
    omega
  exact lt_of_lt_of_le h3 (le_trans h1 h2)

/-- The box-size list is exactly the powers `2^0 … 2^(⌊log₂ L⌋ − 1)`. -/
theorem box_sizes_eq (L : ℕ) :
    box_sizes L = (List.range (Nat.log2 L)).map (fun i => 2 ^ i) := by
  apply List.filter_eq_self.2
  intro s hs
  obtain ⟨j, hj, rfl⟩ := List.mem_map.1 hs
  simp only [decide_eq_true_eq]
  exact pow_lt_of_lt_log2 L j (List.mem_range.1 hj)

/-- `⌊log₂ 3⌋ = 1`: turns `Nat.log2` into a reducible value. -/
theorem log2_three : Nat.log2 3 = 1 := by
  rw [Nat.log2_eq_log_two]
  exact Nat.log_eq_of_pow_le_of_lt_pow (by norm_num) (by norm_num)

/-- `⌊log₂ 512⌋ = 9`. -/
theorem log2_fivetwelve : Nat.log2 512 = 9 := by
  rw [Nat.log2_eq_log_two]
  exact Nat.log_eq_of_pow_le_of_lt_pow (by norm_num) (by norm_num)

/-- Counterexample to C1: on the grid `[1, 1, 0]` of length 3, the power
of two `2 = 2^1` is strictly less than 3, yet it is not among the
generated box sizes (the generation stops at `2^(⌊log₂ 3⌋ − 1) = 1`). -/
theorem box_sizes_claim_counterexample :
    2 ∉ box_sizes (List.length [1, 1, 0]) ∧ 2 = 2 ^ 1 ∧
      2 < List.length [1, 1, 0] := by
  refine ⟨?_, rfl, by decide⟩
  show 2 ∉ box_sizes 3
  rw [box_sizes_eq, log2_three]
  decide

/-- C1 (amended) — the generated box sizes are exactly
`2^0, …, 2^(⌊log₂ L⌋ − 1)`; when `L` is a power of two these are exactly
all powers of two strictly less than `L`, and for `L = 512` they are
`{1, 2, 4, 8, 16, 32, 64, 128, 256}`. -/
theorem box_sizes_spec :
    (∀ L s : ℕ, s ∈ box_sizes L ↔ ∃ j, j < Nat.log2 L ∧ s = 2 ^ j) ∧
    (∀ k s : ℕ, s ∈ box_sizes (2 ^ k) ↔ (∃ j, s = 2 ^ j) ∧ s < 2 ^ k) ∧
    box_sizes 512 = [1, 2, 4, 8, 16, 32, 64, 128, 256] := by
  have h512 : box_sizes 512 = [1, 2, 4, 8, 16, 32, 64, 128, 256] := by
    rw [box_sizes_eq, log2_fivetwelve]
    decide
  have hmem : ∀ L s : ℕ, s ∈ box_sizes L ↔ ∃ j, j < Nat.log2 L ∧ s = 2 ^ j := by
    intro L s
    rw [box_sizes_eq]
    constructor
    · intro hs
      obtain ⟨j, hj, rfl⟩ := List.mem_map.1 hs
      exact ⟨j, List.mem_range.1 hj, rfl⟩
    · rintro ⟨j, hj, rfl⟩
      exact List.mem_map.2 ⟨j, List.mem_range.2 hj, rfl⟩
  refine ⟨hmem, ?_, h512⟩
  intro k s
  rw [hmem]
  have hlog : Nat.log2 (2 ^ k) = k := by
    rw [Nat.log2_eq_log_two]
    exact Nat.log_pow (by norm_num) k
  rw [hlog]
  constructor
  · rintro ⟨j, hj, rfl⟩
    exact ⟨⟨j, rfl⟩, (Nat.pow_lt_pow_iff_right (by norm_num)).2 hj⟩
  · rintro ⟨⟨j, rfl⟩, hlt⟩
    exact ⟨j, (Nat.pow_lt_pow_iff_right (by norm_num)).1 hlt, rfl⟩

/-- Number of active-cell indices = number of active cells. -/
theorem active_cells_length_eq_countP (g : List ℕ) :
    (active_cells_indices g).length = g.countP (fun c => decide (0 < c)) := by
  unfold active_cells_indices
  rw [← List.countP_eq_length_filter]
  induction g with
  | nil => simp
  | cons c t ih =>
    rw [List.length_cons, List.range_succ_eq_map, List.countP_cons, List.countP_map,
      List.countP_cons]
    have hcomp : ((fun i => decide (0 < (c :: t).getD i 0)) ∘ Nat.succ) =
        (fun i => decide (0 < t.getD i 0)) := by
      funext i
      simp [Function.comp, List.getD_cons_succ]
    rw [hcomp, ih]
    simp [List.getD_cons_zero]

/-- With fewer than two active cells the estimator returns 0. -/
theorem dim_zero_of_active_lt_two (g : List ℕ)
    (h : (active_cells_indices g).length < 2) : calculate_box_dimension g = 0 := by
  unfold calculate_box_dimension
  rw [if_pos h]

/-- With no generated box sizes the estimator returns 0. -/
theorem dim_zero_of_box_sizes_nil (g : List ℕ) (h : box_sizes g.length = []) :
    calculate_box_dimension g = 0 := by
  unfold calculate_box_dimension
  split_ifs <;> simp_all

/-- With fewer than two positive box counts the estimator returns 0. -/
theorem dim_zero_of_valid_lt_two (g : List ℕ) (h : (valid_pairs g).length < 2) :
    calculate_box_dimension g = 0 := by
  unfold calculate_box_dimension
  split_ifs <;> simp_all

/-- C2 — every degenerate branch of `calculate_box_dimension` returns
exactly 0: fewer than two active cells, an empty box-size list, fewer than
two positive box counts; in particular an all-susceptible grid and a grid
with exactly one active cell give 0. The embedded function is total, so no
error ever reaches the caller. -/
theorem calculate_box_dimension_degenerate :
    (∀ g : List ℕ, (active_cells_indices g).length < 2 →
      calculate_box_dimension g = 0) ∧
    (∀ g : List ℕ, box_sizes g.length = [] → calculate_box_dimension g = 0) ∧
    (∀ g : List ℕ, (valid_pairs g).length < 2 → calculate_box_dimension g = 0) ∧
    (∀ g : List ℕ, (∀ c ∈ g, c = SUSCEPTIBLE) → calculate_box_dimension g = 0) ∧
    (∀ g : List ℕ, g.countP (fun c => decide (0 < c)) = 1 →
      calculate_box_dimension g = 0) := by
  refine ⟨dim_zero_of_active_lt_two, dim_zero_of_box_sizes_nil,
    dim_zero_of_valid_lt_two, ?_, ?_⟩
  · intro g h
    apply dim_zero_of_active_lt_two
    rw [active_cells_length_eq_countP]
    have : g.countP (fun c => decide (0 < c)) = 0 := by
      apply List.countP_eq_zero.2
      intro a ha
      simp [h a ha, SUSCEPTIBLE]
    omega
  · intro g h
    apply dim_zero_of_active_lt_two
    rw [active_cells_length_eq_countP, h]
    omega

/-- Witness for C2: the all-susceptible grid and a single-active grid. -/
theorem calculate_box_dimension_degenerate_witness :
    calculate_box_dimension [0, 0, 0, 0] = 0 ∧
    calculate_box_dimension [0, 2, 0, 0] = 0 :=
  ⟨calculate_box_dimension_degenerate.2.2.2.1 [0, 0, 0, 0] (by decide),
   calculate_box_dimension_degenerate.2.2.2.2 [0, 2, 0, 0] (by decide)⟩

/-- The activity pattern of a grid: which cells are non-susceptible. -/
def active_mask (g : List ℕ) : List Bool := g.map (fun c => decide (0 < c))

/-- `getD` through the activity mask. -/
theorem active_mask_getD (g : List ℕ) (i : ℕ) :
    (active_mask g).getD i false = decide (0 < g.getD i 0) := by
  rcases Nat.lt_or_ge i g.length with h | h
  · rw [List.getD_eq_getElem _ _ (by simpa [active_mask] using h),
      List.getD_eq_getElem _ _ h]
    simp [active_mask]
  · rw [List.getD_eq_default _ _ (by simpa [active_mask] using h),
      List.getD_eq_default _ _ h]
    simp

/-- `any` over a mapped list is `any` of the composition. -/
theorem any_map_comp {α β : Type} (f : α → β) (p : β → Bool) (l : List α) :
    (l.map f).any p = l.any (fun a => p (f a)) := by
  induction l with
  | nil => rfl
  | cons x xs ih => simp [List.any_cons, ih]

/-- Window activity is a function of the activity mask. -/
theorem window_active_mask (g : List ℕ) (i s : ℕ) :
    window_active g i s = (((active_mask g).drop i).take s).any (fun b => b) := by
  unfold window_active active_mask
  rw [← List.map_drop, ← List.map_take, any_map_comp]

/-- C10 — the estimated dimension depends only on which cells are active:
two grids with the same activity mask (same length, same set of
non-susceptible indices) get the same dimension, regardless of whether an
active cell is Infected or Recovered. -/
theorem calculate_box_dimension_mask_invariant (g1 g2 : List ℕ)
    (hm : active_mask g1 = active_mask g2) :
    calculate_box_dimension g1 = calculate_box_dimension g2 := by
  have hlen : g1.length = g2.length := by
    have h := congrArg List.length hm
    simpa [active_mask] using h
  have hw : ∀ i s, window_active g1 i s = window_active g2 i s := by
    intro i s
    rw [window_active_mask, window_active_mask, hm]
  have hactive : active_cells_indices g1 = active_cells_indices g2 := by
    unfold active_cells_indices
    rw [hlen]
    apply List.filter_congr
    intro i _
    rw [← active_mask_getD, ← active_mask_getD, hm]
  have hbc : ∀ s, box_count g1 s = box_count g2 s := by
    intro s
    unfold box_count
    rw [hlen]
    congr 1
    apply List.filter_congr
    intro i _
    rw [hw]
  have hvp : valid_pairs g1 = valid_pairs g2 := by
    unfold valid_pairs
    rw [hlen]
    have hfun : (fun s => (s, box_count g1 s)) = (fun s => (s, box_count g2 s)) :=
      funext fun s => by rw [hbc]
    rw [hfun]
  unfold calculate_box_dimension
  rw [hactive, hlen, hvp]

/-- Witness for C10: swapping Infected and Recovered cells leaves the
dimension unchanged. -/
theorem calculate_box_dimension_mask_invariant_witness :
    calculate_box_dimension [1, 0, 2, 0] = calculate_box_dimension [2, 0, 1, 0] :=
  calculate_box_dimension_mask_invariant [1, 0, 2, 0] [2, 0, 1, 0] (by decide)

/-! ## The estimator on a fully active power-of-two grid -/

/-- `⌊log₂ (2^k)⌋ = k`. -/
theorem log2_two_pow (k : ℕ) : Nat.log2 (2 ^ k) = k := by
  rw [Nat.log2_eq_log_two]
  exact Nat.log_pow (by norm_num) k

/-- On a grid with every cell active, every nonempty window is active. -/
theorem window_active_full (g : List ℕ) (hall : ∀ c ∈ g, 0 < c) (i s : ℕ)
    (hi : i < g.length) (hs : 0 < s) : window_active g i s = true := by
  unfold window_active
  rw [List.any_eq_true]
  have hne : (g.drop i).take s ≠ [] := by
    apply List.ne_nil_of_length_pos
    rw [List.length_take, List.length_drop]
    exact lt_min hs (by omega)
  obtain ⟨x, hx⟩ := List.exists_mem_of_ne_nil _ hne
  exact ⟨x, hx, by
    simpa using hall x (List.mem_of_mem_drop (List.mem_of_mem_take hx))⟩

/-- On a fully active grid the box count is the number of windows,
`⌈L / s⌉`. -/
theorem box_count_full (g : List ℕ) (hall : ∀ c ∈ g, 0 < c) (s : ℕ)
    (hs : 0 < s) : box_count g s = (g.length + s - 1) / s := by
  unfold box_count box_starts
  rw [List.filter_eq_self.2, List.length_map, List.length_range]
  intro a ha
  obtain ⟨m, hm, rfl⟩ := List.mem_map.1 ha
  have hmq : m < (g.length + s - 1) / s := List.mem_range.1 hm
  have hstart : m * s < g.length := by
    by_contra hc
    have hle : g.length ≤ m * s := Nat.le_of_not_lt hc
    have h1 : (g.length + s - 1) / s ≤ (m * s + s - 1) / s :=
      Nat.div_le_div_right (by omega)
    have h2 : (m * s + s - 1) / s = m := by
      have he : m * s + s - 1 = s - 1 + m * s := by omega
      rw [he, Nat.add_mul_div_right _ _ hs, Nat.div_eq_of_lt (by omega)]
      omega
    omega
  exact window_active_full g hall (m * s) s hstart hs

/-- `⌈2^k / 2^j⌉ = 2^(k−j)` for `j ≤ k`. -/
theorem ceil_div_pow (k j : ℕ) (hjk : j ≤ k) :
    (2 ^ k + 2 ^ j - 1) / 2 ^ j = 2 ^ (k - j) := by
  have hb : 0 < 2 ^ j := Nat.pos_pow_of_pos j (by norm_num)
  have hsplit : 2 ^ k = 2 ^ (k - j) * 2 ^ j := by
    rw [← pow_add]
    congr 1
    omega
  rw [hsplit]
  have he : 2 ^ (k - j) * 2 ^ j + 2 ^ j - 1 = 2 ^ j - 1 + 2 ^ (k - j) * 2 ^ j := by omega
  rw [he, Nat.add_mul_div_right _ _ hb, Nat.div_eq_of_lt (by omega)]
  omega

/-- On a fully active grid of length `2^k` the regression data are
`(2^j, 2^(k−j))` for `j < k`. -/
theorem valid_pairs_full (g : List ℕ) (k : ℕ) (hlen : g.length = 2 ^ k)
    (hall : ∀ c ∈ g, 0 < c) :
    valid_pairs g = (List.range k).map (fun j => (2 ^ j, 2 ^ (k - j))) := by
  unfold valid_pairs
  rw [hlen, box_sizes_eq, log2_two_pow, List.map_map]
  have hcong : ((List.range k).map ((fun s => (s, box_count g s)) ∘ fun i => 2 ^ i)) =
      (List.range k).map (fun j => (2 ^ j, 2 ^ (k - j))) := by
    apply List.map_congr_left
    intro j hj
    have hjk : j < k := List.mem_range.1 hj
    simp only [Function.comp]
    have hbc : box_count g (2 ^ j) = 2 ^ (k - j) := by
      rw [box_count_full g hall (2 ^ j) (Nat.pos_pow_of_pos j (by norm_num)), hlen]
      exact ceil_div_pow k j (le_of_lt hjk)
    rw [hbc]
  rw [hcong]
  apply List.filter_eq_self.2
  intro p hp
  obtain ⟨j, hj, rfl⟩ := List.mem_map.1 hp
  simp only [decide_eq_true_eq]
  exact Nat.pos_pow_of_pos (k - j) (by norm_num)

/-- Sum of ordinates of points on the line `y = m·x + c`. -/
theorem sum_snd_on_line (m c : ℝ) (pts : List (ℝ × ℝ))
    (h : ∀ p ∈ pts, p.2 = m * p.1 + c) :
    (pts.map Prod.snd).sum = m * (pts.map Prod.fst).sum + c * pts.length := by
  induction pts with
  | nil => simp
  | cons q qs ih =>
    have hq := h q (List.mem_cons_self q qs)
    have hrest := ih (fun p hp => h p (List.mem_cons_of_mem q hp))
    simp only [List.map_cons, List.sum_cons, List.length_cons]
    rw [hq, hrest]
    push_cast
    ring

/-- Sum of products `x·y` for points on the line `y = m·x + c`. -/
theorem sum_mul_on_line (m c : ℝ) (pts : List (ℝ × ℝ))
    (h : ∀ p ∈ pts, p.2 = m * p.1 + c) :
    (pts.map (fun p => p.1 * p.2)).sum =
      m * (pts.map (fun p => p.1 * p.1)).sum + c * (pts.map Prod.fst).sum := by
  induction pts with
  | nil => simp
  | cons q qs ih =>
    have hq := h q (List.mem_cons_self q qs)
    have hrest := ih (fun p hp => h p (List.mem_cons_of_mem q hp))
    simp only [List.map_cons, List.sum_cons]
    rw [hq, hrest]
    ring

/-- The regression slope of points lying exactly on a line of slope `m`
is `m` (nonzero denominator). -/
theorem lin_slope_on_line (m c : ℝ) (pts : List (ℝ × ℝ))
    (h : ∀ p ∈ pts, p.2 = m * p.1 + c)
    (hden : (pts.length : ℝ) * (pts.map (fun p => p.1 * p.1)).sum -
      (pts.map Prod.fst).sum * (pts.map Prod.fst).sum ≠ 0) :
    lin_slope pts = m := by
  unfold lin_slope
  rw [sum_snd_on_line m c pts h, sum_mul_on_line m c pts h]
  field_simp
  ring

/-- `2·(0 + 1 + ⋯ + (k−1)) ≤ k²`. -/
theorem twice_sum_range_le (k : ℕ) : 2 * (List.range k).sum ≤ k * k := by
  induction k with
  | zero => simp
  | succ n ih =>
    rw [List.range_succ, List.sum_append]
    simp only [List.sum_cons, List.sum_nil]
    nlinarith

/-- Strict Cauchy–Schwarz for `0, 1, …, k−1` with `k ≥ 2`:
`(Σ j)² < k · Σ j²`. -/
theorem sq_sum_range_lt (k : ℕ) (hk : 2 ≤ k) :
    (List.range k).sum * (List.range k).sum <
      k * ((List.range k).map (fun j => j * j)).sum := by
  induction k, hk using Nat.le_induction with
  | base => decide
  | succ n hn ih =>
    rw [List.range_succ, List.sum_append, List.map_append, List.sum_append]
    simp only [List.sum_cons, List.sum_nil, List.map_cons, List.map_nil]
    have htw := twice_sum_range_le n
    nlinarith

/-- Sum of `−(j·c)` over a list of naturals. -/
theorem sum_map_neg_mul (l : List ℕ) (c : ℝ) :
    (l.map (fun j : ℕ => -((j : ℝ) * c))).sum = -(((l.sum : ℕ) : ℝ) * c) := by
  induction l with
  | nil => simp
  | cons x xs ih =>
    simp only [List.map_cons, List.sum_cons, ih]
    push_cast
    ring

/-- Sum of `(−j·c)²` over a list of naturals. -/
theorem sum_map_sq_mul (l : List ℕ) (c : ℝ) :
    (l.map (fun j : ℕ => -((j : ℝ) * c) * -((j : ℝ) * c))).sum =
      ((((l.map (fun j => j * j)).sum : ℕ) : ℝ) * (c * c)) := by
  induction l with
  | nil => simp
  | cons x xs ih =>
    simp only [List.map_cons, List.sum_cons, ih]
    push_cast
    ring

/-- C3 (amended) — on a fully active grid (every cell Infected or
Recovered) of length `2^k` with `k ≥ 2`, the box counts lie exactly on
the line `log N = log L + log(1/s)`, the regression slope is exactly 1,
and the estimated dimension is within 0.2 of 1. -/
theorem calculate_box_dimension_full (g : List ℕ) (k : ℕ)
    (hlen : g.length = 2 ^ k) (hk : 2 ≤ k)
    (hall : ∀ c ∈ g, c = INFECTED ∨ c = RECOVERED) :
    |calculate_box_dimension g - 1| ≤ 0.2 := by
  have hpos : ∀ c ∈ g, 0 < c := by
    intro c hc
    rcases hall c hc with h | h <;> simp [h, INFECTED, RECOVERED]
  have hact : active_cells_indices g = List.range (2 ^ k) := by
    unfold active_cells_indices
    rw [hlen]
    apply List.filter_eq_self.2
    intro i hi
    have hilt : i < g.length := by
      rw [hlen]
      exact List.mem_range.1 hi
    rw [List.getD_eq_getElem g 0 hilt]
    simp only [decide_eq_true_eq]
    exact hpos _ (g.getElem_mem hilt)
  have hpairs := valid_pairs_full g k hlen hpos
  have h4 : 4 ≤ 2 ^ k := by
    calc 4 = 2 ^ 2 := by norm_num
    _ ≤ 2 ^ k := Nat.pow_le_pow_right (by norm_num) hk
  have hval : calculate_box_dimension g = 1 := by
    unfold calculate_box_dimension
    rw [hact, hlen, box_sizes_eq, log2_two_pow, hpairs]
    rw [if_neg (by simp only [List.length_range]; omega),
      if_neg (by simp only [ne_eq, List.map_eq_nil, List.range_eq_nil]; omega),
      if_neg (by simp only [List.length_map, List.length_range]; omega)]
    rw [List.map_map]
    apply lin_slope_on_line 1 ((k : ℝ) * Real.log 2)
    · intro p hp
      obtain ⟨j, hj, rfl⟩ := List.mem_map.1 hp
      have hjk : j < k := List.mem_range.1 hj
      simp only [Function.comp]
      push_cast
      rw [one_div, Real.log_inv, Real.log_pow, Real.log_pow, Nat.cast_sub (le_of_lt hjk)]
      ring
    · have hfst : (((List.range k).map ((fun p : ℕ × ℕ =>
          (Real.log (1 / (p.1 : ℝ)), Real.log (p.2 : ℝ))) ∘ fun j => (2 ^ j, 2 ^ (k - j)))).map
            Prod.fst) = (List.range k).map (fun j : ℕ => -((j : ℝ) * Real.log 2)) := by
        rw [List.map_map]
        apply List.map_congr_left
        intro j hj
        simp only [Function.comp]
        push_cast
        rw [one_div, Real.log_inv, Real.log_pow]
      have hsq : (((List.range k).map ((fun p : ℕ × ℕ =>
          (Real.log (1 / (p.1 : ℝ)), Real.log (p.2 : ℝ))) ∘ fun j => (2 ^ j, 2 ^ (k - j)))).map
            (fun p => p.1 * p.1)) =
          (List.range k).map (fun j : ℕ =>
            -((j : ℝ) * Real.log 2) * -((j : ℝ) * Real.log 2)) := by
        rw [List.map_map]
        apply List.map_congr_left
        intro j hj
        simp only [Function.comp]
        push_cast
        rw [one_div, Real.log_inv, Real.log_pow]
      rw [hfst, hsq, sum_map_neg_mul, sum_map_sq_mul]
      simp only [List.length_map, List.length_range]
      have hR : (((List.range k).sum : ℕ) : ℝ) * (((List.range k).sum : ℕ) : ℝ) <
          (k : ℝ) * ((((List.range k).map (fun j => j * j)).sum : ℕ) : ℝ) := by
        exact_mod_cast sq_sum_range_lt k hk
      have hlogsq : 0 < Real.log 2 * Real.log 2 :=
        mul_pos (Real.log_pos (by norm_num)) (Real.log_pos (by norm_num))
      apply ne_of_gt
      nlinarith [mul_pos (sub_pos.2 hR) hlogsq]
  rw [hval]
  norm_num

/-- Witness for C3: the fully infected grid of length 4 = 2². -/
theorem calculate_box_dimension_full_witness :
    |calculate_box_dimension [1, 1, 1, 1] - 1| ≤ 0.2 :=
  calculate_box_dimension_full [1, 1, 1, 1] 2 (by decide) (by norm_num) (by decide)

/-- Counterexample to C3 as stated: the fully infected grid `[1, 1]` has
power-of-two length 2, yet only one box size (1) is generated, the
degenerate guard fires, and the estimator returns 0 — not within 0.2 of
1. -/
theorem calculate_box_dimension_full_claim_counterexample :
    List.length ([1, 1] : List ℕ) = 2 ^ 1 ∧
    (∀ c ∈ ([1, 1] : List ℕ), c = INFECTED ∨ c = RECOVERED) ∧
    calculate_box_dimension [1, 1] = 0 ∧
    ¬(|calculate_box_dimension [1, 1] - 1| ≤ 0.2) := by
  have h2 : List.length ([1, 1] : List ℕ) = 2 := rfl
  have hb : box_sizes 2 = [1] := by
    rw [show (2 : ℕ) = 2 ^ 1 by norm_num, box_sizes_eq, log2_two_pow]
    decide
  have hvp : valid_pairs [1, 1] = [(1, 2)] := by
    unfold valid_pairs
    rw [h2, hb]
    decide
  have h0 : calculate_box_dimension [1, 1] = 0 :=
    dim_zero_of_valid_lt_two [1, 1] (by rw [hvp]; decide)
  refine ⟨rfl, by decide, h0, ?_⟩
  rw [h0]
  norm_num
